import Mathlib

/-!
Shallow embedding of the leads-ledger logic of the broker performance
tracker (src/App.tsx, src/components/BrokerDashboard.tsx, src/types.ts).

JavaScript numbers used as counters are modelled as `Int` (the code never
clamps, and balances may go negative).  The `date : string` field always
holds a fixed-width `YYYY-MM-DD` string, on which both the lexicographic
string comparison used by `monthlySummary` and the `new Date(...).getTime()`
comparison used by the sorts agree with the lexicographic order on
(year, month, day); dates are therefore modelled as such triples.
`repiqueLeads` is modelled as `Option Int` because the dashboard treats it
as possibly absent (`entry.repiqueLeads || 0`) for backward compatibility.
-/

namespace Leads

/-- A calendar date as carried by the `date : string` (`YYYY-MM-DD`) field. -/
structure SDate where
  year : Nat
  month : Nat
  day : Nat
deriving DecidableEq

/-- Strict chronological comparison of dates: the order used by
`new Date(a.date).getTime() - new Date(b.date).getTime()` and by the
lexicographic string comparison `entry.date < bound` of the source. -/
def dateLtB (a b : SDate) : Bool :=
  a.year < b.year ||
    (a.year == b.year &&
      (a.month < b.month || (a.month == b.month && a.day < b.day)))

/-- Non-strict chronological comparison of dates. -/
def dateLeB (a b : SDate) : Bool :=
  a.year < b.year ||
    (a.year == b.year &&
      (a.month < b.month || (a.month == b.month && a.day ≤ b.day)))

theorem dateLtB_iff {a b : SDate} :
    dateLtB a b = true ↔
      (a.year < b.year ∨
        (a.year = b.year ∧
          (a.month < b.month ∨ (a.month = b.month ∧ a.day < b.day)))) := by
  simp [dateLtB]

theorem dateLeB_iff {a b : SDate} :
    dateLeB a b = true ↔
      (a.year < b.year ∨
        (a.year = b.year ∧
          (a.month < b.month ∨ (a.month = b.month ∧ a.day ≤ b.day)))) := by
  simp [dateLeB]

theorem dateLeB_refl (a : SDate) : dateLeB a a = true := by
  simp [dateLeB_iff]

theorem dateLeB_trans {a b c : SDate} (h1 : dateLeB a b = true)
    (h2 : dateLeB b c = true) : dateLeB a c = true := by
  rw [dateLeB_iff] at h1 h2 ⊢
  omega

theorem dateLeB_total (a b : SDate) :
    (dateLeB a b || dateLeB b a) = true := by
  rw [Bool.or_eq_true, dateLeB_iff, dateLeB_iff]
  omega

theorem dateLeB_lt_trans {a b c : SDate} (h1 : dateLeB a b = true)
    (h2 : dateLtB b c = true) : dateLtB a c = true := by
  rw [dateLeB_iff] at h1
  rw [dateLtB_iff] at h2 ⊢
  omega

theorem dateLtB_of_dateLeB_of_ne {a b : SDate} (h : dateLeB a b = true)
    (hne : a ≠ b) : dateLtB a b = true := by
  rw [dateLeB_iff] at h
  rw [dateLtB_iff]
  have : ¬(a.year = b.year ∧ a.month = b.month ∧ a.day = b.day) := by
    intro hc
    exact hne (by cases a; cases b; simp_all)
  omega

theorem dateLtB_irrefl (a : SDate) : dateLtB a a = false := by
  simp [dateLtB]

theorem not_dateLtB_of_dateLeB {a b : SDate} (h : dateLeB a b = true) :
    dateLtB b a = false := by
  rw [dateLeB_iff] at h
  cases hlt : dateLtB b a
  · rfl
  · rw [dateLtB_iff] at hlt
    omega

/-- The daily funnel counters of one calendar day (`DailyEntry` in
src/types.ts).  The derived `startOfDayBalance` is never stored on the
persisted entry, so it is not a field here. -/
structure DailyEntry where
  date : SDate
  newLeads : Int
  discardedLeads : Int
  repiqueLeads : Option Int
  localVisits : Int
  contactingLeads : Int
  inProgressLeads : Int
  scheduledLeads : Int
  negotiationLeads : Int
  creditAnalysisLeads : Int
  approvedLeads : Int
  signedLeads : Int
deriving DecidableEq

/-- `BrokerProfile` in src/types.ts. -/
structure BrokerProfile where
  brokerName : String
  initialLeads : Int
  monthlySalesGoal : Option Int
  dailyEntries : List DailyEntry
deriving DecidableEq

/-- An entry annotated with the derived balances (the objects produced by
`entriesWithCalculatedBalances` in BrokerDashboard.tsx). -/
structure ProjectedEntry where
  entry : DailyEntry
  startOfDayBalance : Int
  endOfDayBalance : Int
deriving DecidableEq

/-- One day of the balance fold:
`currentLeadBase + entry.newLeads + (entry.repiqueLeads || 0)
  - entry.discardedLeads - entry.signedLeads`
(BrokerDashboard.tsx line 179). -/
def step (bal : Int) (e : DailyEntry) : Int :=
  bal + e.newLeads + e.repiqueLeads.getD 0 - e.discardedLeads - e.signedLeads

/-- The `map` over chronological entries in `entriesWithCalculatedBalances`
(BrokerDashboard.tsx lines 177-183): annotate each entry with the running
balance before and after the day, threading the balance through. -/
def annotate (bal : Int) : List DailyEntry → List ProjectedEntry
  | [] => []
  | e :: rest =>
      { entry := e, startOfDayBalance := bal, endOfDayBalance := step bal e }
        :: annotate (step bal e) rest

/-- The chronological sort `[...profile.dailyEntries].sort((a, b) =>
new Date(a.date).getTime() - new Date(b.date).getTime())` (lines 173-175).
JavaScript `Array.prototype.sort` is stable, as is `mergeSort`. -/
def sortEntries (l : List DailyEntry) : List DailyEntry :=
  l.mergeSort (fun a b => dateLeB a.date b.date)

/-- The local `entriesWithBalance` of BrokerDashboard.tsx lines 177-183:
the chronologically sorted entries annotated with balances, before the
final `reverse()`. -/
def entriesWithBalance (p : BrokerProfile) : List ProjectedEntry :=
  annotate p.initialLeads (sortEntries p.dailyEntries)

/-- `entriesWithCalculatedBalances` (BrokerDashboard.tsx lines 172-185):
note the trailing `.reverse()` on line 184, so the memo value is in
most-recent-first order. -/
def entriesWithCalculatedBalances (p : BrokerProfile) : List ProjectedEntry :=
  (entriesWithBalance p).reverse

/-- The `chronologicalEntries` recomputed by `handleGenerateCsv`
(BrokerDashboard.tsx line 194): an explicit caller-side reverse of the
projector output. -/
def csvChronologicalEntries (p : BrokerProfile) : List ProjectedEntry :=
  (entriesWithCalculatedBalances p).reverse

theorem annotate_length (bal : Int) (l : List DailyEntry) :
    (annotate bal l).length = l.length := by
  induction l generalizing bal with
  | nil => rfl
  | cons e t ih => simp [annotate, ih]

theorem annotate_map_entry (bal : Int) (l : List DailyEntry) :
    (annotate bal l).map ProjectedEntry.entry = l := by
  induction l generalizing bal with
  | nil => rfl
  | cons e t ih => simp [annotate, ih]

theorem annotate_get_start (l : List DailyEntry) (bal : Int) (i : Nat)
    (h : i < (annotate bal l).length) :
    ((annotate bal l).get ⟨i, h⟩).startOfDayBalance =
      (l.take i).foldl step bal := by
  induction l generalizing bal i with
  | nil => simp [annotate] at h
  | cons e t ih =>
      cases i with
      | zero => simp [annotate]
      | succ j =>
          have h' : j < (annotate (step bal e) t).length := by
            simpa [annotate] using h
          simpa [annotate, List.foldl] using ih (step bal e) j h'

theorem annotate_get_end (l : List DailyEntry) (bal : Int) (i : Nat)
    (h : i < (annotate bal l).length) :
    ((annotate bal l).get ⟨i, h⟩).endOfDayBalance =
      (l.take (i + 1)).foldl step bal := by
  induction l generalizing bal i with
  | nil => simp [annotate] at h
  | cons e t ih =>
      cases i with
      | zero => simp [annotate]
      | succ j =>
          have h' : j < (annotate (step bal e) t).length := by
            simpa [annotate] using h
          simpa [annotate, List.foldl] using ih (step bal e) j h'

theorem annotate_get_entry (l : List DailyEntry) (bal : Int) (i : Nat)
    (h : i < (annotate bal l).length)
    (h2 : i < l.length) :
    ((annotate bal l).get ⟨i, h⟩).entry = l.get ⟨i, h2⟩ := by
  induction l generalizing bal i with
  | nil => simp [annotate] at h
  | cons e t ih =>
      cases i with
      | zero => simp [annotate]
      | succ j =>
          have h' : j < (annotate (step bal e) t).length := by
            simpa [annotate] using h
          simpa [annotate] using ih (step bal e) j h' (by simpa using h2)

theorem annotate_getLast_end (l : List DailyEntry) (bal : Int)
    (pe : ProjectedEntry) (h : (annotate bal l).getLast? = some pe) :
    pe.endOfDayBalance = l.foldl step bal := by
  induction l generalizing bal with
  | nil => simp [annotate] at h
  | cons e t ih =>
      cases t with
      | nil =>
          simp [annotate] at h
          simp [← h, List.foldl]
      | cons e2 t2 =>
          have : (annotate bal (e :: e2 :: t2)).getLast? =
              (annotate (step bal e) (e2 :: t2)).getLast? := by
            simp [annotate, List.getLast?_cons_cons]
          rw [this] at h
          simpa [List.foldl] using ih (step bal e) h

theorem sortEntries_sorted (l : List DailyEntry) :
    (sortEntries l).Pairwise (fun a b => dateLeB a.date b.date = true) := by
  have := @List.sorted_mergeSort DailyEntry
    (fun a b : DailyEntry => dateLeB a.date b.date)
    (fun a b c hab hbc => dateLeB_trans hab hbc)
    (fun a b => dateLeB_total a.date b.date) l
  simpa [sortEntries] using this

theorem sortEntries_perm (l : List DailyEntry) :
    (sortEntries l).Perm l :=
  List.mergeSort_perm l _

theorem sortEntries_eq_self {l : List DailyEntry}
    (h : l.Pairwise fun a b => dateLeB a.date b.date = true) :
    sortEntries l = l :=
  List.mergeSort_of_sorted (by simpa using h)

theorem sortEntries_sorted_strict {l : List DailyEntry}
    (hnd : (l.map DailyEntry.date).Nodup) :
    (sortEntries l).Pairwise (fun a b => dateLtB a.date b.date = true) := by
  have hnd2 : ((sortEntries l).map DailyEntry.date).Nodup :=
    (((sortEntries_perm l).map DailyEntry.date).nodup_iff).mpr hnd
  have hne : (sortEntries l).Pairwise (fun a b => a.date ≠ b.date) :=
    List.pairwise_map.mp hnd2
  exact List.Pairwise.imp₂
    (fun a b h1 h2 => dateLtB_of_dateLeB_of_ne h1 h2)
    (sortEntries_sorted l) hne

theorem foldl_take_succ (l : List DailyEntry) (bal : Int) (i : Nat)
    (h : i < l.length) :
    (l.take (i + 1)).foldl step bal =
      step ((l.take i).foldl step bal) (l.get ⟨i, h⟩) := by
  have h1 : l[i]? = some (l.get ⟨i, h⟩) := by
    simp [List.getElem?_eq_getElem h]
  rw [List.take_succ, h1, Option.toList_some, List.foldl_append]
  rfl

/-- The worked example of the spec (section 8): broker with
`initialLeads = 100`, day-1 entry with 10 new, 2 discarded, 1 signed,
no repique field, day-2 entry with 5 new, 3 repique, 0 discarded,
2 signed. -/
def exampleEntry1 : DailyEntry :=
  { date := ⟨2024, 1, 1⟩, newLeads := 10, discardedLeads := 2,
    repiqueLeads := none, localVisits := 0, contactingLeads := 0,
    inProgressLeads := 0, scheduledLeads := 0, negotiationLeads := 0,
    creditAnalysisLeads := 0, approvedLeads := 0, signedLeads := 1 }

def exampleEntry2 : DailyEntry :=
  { date := ⟨2024, 1, 2⟩, newLeads := 5, discardedLeads := 0,
    repiqueLeads := some 3, localVisits := 0, contactingLeads := 0,
    inProgressLeads := 0, scheduledLeads := 0, negotiationLeads := 0,
    creditAnalysisLeads := 0, approvedLeads := 0, signedLeads := 2 }

def exampleProfile : BrokerProfile :=
  { brokerName := "Ana", initialLeads := 100, monthlySalesGoal := none,
    dailyEntries := [exampleEntry1, exampleEntry2] }

/-- A profile whose running balance goes negative: the fold applies no
clamping anywhere. -/
def overdiscardEntry : DailyEntry :=
  { date := ⟨2024, 1, 1⟩, newLeads := 0, discardedLeads := 5,
    repiqueLeads := none, localVisits := 0, contactingLeads := 0,
    inProgressLeads := 0, scheduledLeads := 0, negotiationLeads := 0,
    creditAnalysisLeads := 0, approvedLeads := 0, signedLeads := 0 }

def overdiscardProfile : BrokerProfile :=
  { brokerName := "Bia", initialLeads := 0, monthlySalesGoal := none,
    dailyEntries := [overdiscardEntry] }

/-- C1: the balance projection sorts the entries ascending by date and
folds left from `balance = initialLeads`: the first annotated entry starts
at `initialLeads`, each entry's `endOfDayBalance` is its
`startOfDayBalance + newLeads + repiqueLeads (0 when absent)
- discardedLeads - signedLeads`, and each next entry starts at the
previous entry's end balance.  On the spec's example the balances are
100/107 then 107/113, and the balance can go negative without clamping. -/
theorem balance_projection_fold (p : BrokerProfile)
    (hnd : (p.dailyEntries.map DailyEntry.date).Nodup) :
    ((sortEntries p.dailyEntries).Pairwise
        (fun a b => dateLtB a.date b.date = true))
    ∧ (entriesWithBalance p).map ProjectedEntry.entry
        = sortEntries p.dailyEntries
    ∧ (∀ h0 : 0 < (entriesWithBalance p).length,
        ((entriesWithBalance p).get ⟨0, h0⟩).startOfDayBalance
          = p.initialLeads)
    ∧ (∀ (i : Nat) (h : i < (entriesWithBalance p).length),
        ((entriesWithBalance p).get ⟨i, h⟩).endOfDayBalance =
          ((entriesWithBalance p).get ⟨i, h⟩).startOfDayBalance
            + ((entriesWithBalance p).get ⟨i, h⟩).entry.newLeads
            + ((entriesWithBalance p).get ⟨i, h⟩).entry.repiqueLeads.getD 0
            - ((entriesWithBalance p).get ⟨i, h⟩).entry.discardedLeads
            - ((entriesWithBalance p).get ⟨i, h⟩).entry.signedLeads)
    ∧ (∀ (i : Nat) (h1 : i + 1 < (entriesWithBalance p).length),
        ((entriesWithBalance p).get ⟨i + 1, h1⟩).startOfDayBalance =
          ((entriesWithBalance p).get ⟨i, Nat.lt_of_succ_lt h1⟩).endOfDayBalance)
    ∧ entriesWithBalance exampleProfile =
        [{ entry := exampleEntry1, startOfDayBalance := 100,
           endOfDayBalance := 107 },
         { entry := exampleEntry2, startOfDayBalance := 107,
           endOfDayBalance := 113 }]
    ∧ (entriesWithBalance overdiscardProfile).map
        ProjectedEntry.endOfDayBalance = [-5] := by
  refine ⟨sortEntries_sorted_strict hnd, annotate_map_entry _ _, ?_, ?_, ?_, ?_, ?_⟩
  · intro h0
    simpa using annotate_get_start (sortEntries p.dailyEntries)
      p.initialLeads 0 h0
  · intro i h
    have h2 : i < (sortEntries p.dailyEntries).length := by
      have := annotate_length p.initialLeads (sortEntries p.dailyEntries)
      unfold entriesWithBalance at h
      omega
    show ((entriesWithBalance p).get ⟨i, h⟩).endOfDayBalance = _
    unfold entriesWithBalance at h ⊢
    rw [annotate_get_end _ _ _ h, annotate_get_start _ _ _ h,
      annotate_get_entry _ _ _ h h2, foldl_take_succ _ _ _ h2]
    simp [step]
  · intro i h1
    have h2 : i + 1 < (sortEntries p.dailyEntries).length := by
      have := annotate_length p.initialLeads (sortEntries p.dailyEntries)
      unfold entriesWithBalance at h1
      omega
    unfold entriesWithBalance at h1 ⊢
    rw [annotate_get_start _ _ _ h1,
      annotate_get_end _ _ _ (Nat.lt_of_succ_lt h1)]
  · show annotate (100 : Int) (sortEntries [exampleEntry1, exampleEntry2]) = _
    rw [sortEntries_eq_self (by decide)]
    decide
  · show (annotate (0 : Int) (sortEntries [overdiscardEntry])).map
        ProjectedEntry.endOfDayBalance = [-5]
    rw [sortEntries_eq_self (by decide)]
    decide

/-- Witness for C1 at the spec's example profile. -/
theorem balance_projection_fold_witness :
    (exampleProfile.dailyEntries.map DailyEntry.date).Nodup
    ∧ ((sortEntries exampleProfile.dailyEntries).Pairwise
          (fun a b => dateLtB a.date b.date = true))
    ∧ (entriesWithBalance exampleProfile).map ProjectedEntry.entry
        = sortEntries exampleProfile.dailyEntries
    ∧ (∀ h0 : 0 < (entriesWithBalance exampleProfile).length,
        ((entriesWithBalance exampleProfile).get ⟨0, h0⟩).startOfDayBalance
          = exampleProfile.initialLeads)
    ∧ (∀ (i : Nat) (h : i < (entriesWithBalance exampleProfile).length),
        ((entriesWithBalance exampleProfile).get ⟨i, h⟩).endOfDayBalance =
          ((entriesWithBalance exampleProfile).get ⟨i, h⟩).startOfDayBalance
            + ((entriesWithBalance exampleProfile).get
                ⟨i, h⟩).entry.newLeads
            + ((entriesWithBalance exampleProfile).get
                ⟨i, h⟩).entry.repiqueLeads.getD 0
            - ((entriesWithBalance exampleProfile).get
                ⟨i, h⟩).entry.discardedLeads
            - ((entriesWithBalance exampleProfile).get
                ⟨i, h⟩).entry.signedLeads)
    ∧ (∀ (i : Nat) (h1 : i + 1 < (entriesWithBalance exampleProfile).length),
        ((entriesWithBalance exampleProfile).get
            ⟨i + 1, h1⟩).startOfDayBalance =
          ((entriesWithBalance exampleProfile).get
            ⟨i, Nat.lt_of_succ_lt h1⟩).endOfDayBalance)
    ∧ entriesWithBalance exampleProfile =
        [{ entry := exampleEntry1, startOfDayBalance := 100,
           endOfDayBalance := 107 },
         { entry := exampleEntry2, startOfDayBalance := 107,
           endOfDayBalance := 113 }]
    ∧ (entriesWithBalance overdiscardProfile).map
        ProjectedEntry.endOfDayBalance = [-5] :=
  ⟨by decide, balance_projection_fold exampleProfile (by decide)⟩

/-- C4 counterexample: on the spec's own example profile the list produced
by `entriesWithCalculatedBalances` is NOT in chronological order — its
first element is the later day.  The `reverse()` on line 184 of
BrokerDashboard.tsx makes the projector output most-recent-first. -/
theorem projection_not_chronological_counterexample :
    ((entriesWithCalculatedBalances exampleProfile).map
        (fun pe => pe.entry.date) = [⟨2024, 1, 2⟩, ⟨2024, 1, 1⟩])
    ∧ dateLtB ⟨2024, 1, 1⟩ ⟨2024, 1, 2⟩ = true := by
  have hs : sortEntries exampleProfile.dailyEntries
      = [exampleEntry1, exampleEntry2] := sortEntries_eq_self (by decide)
  constructor
  · unfold entriesWithCalculatedBalances entriesWithBalance
    rw [hs]
    decide
  · decide

/-- C4 (amended): the balance projection `entriesWithCalculatedBalances`
outputs the annotated entries in most-recent-first (reverse chronological)
order; the chronological presentation used by the CSV export is obtained by
an explicit reverse performed by the caller (`handleGenerateCsv`), which
recovers exactly the chronological annotated list. -/
theorem projection_order_amended (p : BrokerProfile)
    (hnd : (p.dailyEntries.map DailyEntry.date).Nodup) :
    entriesWithCalculatedBalances p = (entriesWithBalance p).reverse
    ∧ csvChronologicalEntries p = entriesWithBalance p
    ∧ (entriesWithBalance p).Pairwise
        (fun a b => dateLtB a.entry.date b.entry.date = true)
    ∧ (entriesWithCalculatedBalances p).Pairwise
        (fun a b => dateLtB b.entry.date a.entry.date = true) := by
  have hchron : (entriesWithBalance p).Pairwise
      (fun a b => dateLtB a.entry.date b.entry.date = true) := by
    have hs := sortEntries_sorted_strict hnd
    rw [← annotate_map_entry p.initialLeads (sortEntries p.dailyEntries)]
      at hs
    exact List.pairwise_map.mp hs
  refine ⟨rfl, ?_, hchron, ?_⟩
  · unfold csvChronologicalEntries entriesWithCalculatedBalances
    exact List.reverse_reverse _
  · unfold entriesWithCalculatedBalances
    exact List.pairwise_reverse.mpr hchron

/-- Witness for the amended C4 at the spec's example profile. -/
theorem projection_order_amended_witness :
    (exampleProfile.dailyEntries.map DailyEntry.date).Nodup
    ∧ (entriesWithCalculatedBalances exampleProfile
        = (entriesWithBalance exampleProfile).reverse
      ∧ csvChronologicalEntries exampleProfile
          = entriesWithBalance exampleProfile
      ∧ (entriesWithBalance exampleProfile).Pairwise
          (fun a b => dateLtB a.entry.date b.entry.date = true)
      ∧ (entriesWithCalculatedBalances exampleProfile).Pairwise
          (fun a b => dateLtB b.entry.date a.entry.date = true)) :=
  ⟨by decide, projection_order_amended exampleProfile (by decide)⟩

/-! ### Monthly aggregation (`monthlySummary`, BrokerDashboard.tsx 292-321) -/

/-- Sum one numeric field over a list of entries (the
`monthEntries.reduce((sum, entry) => sum + ..., 0)` pattern). -/
def sumBy (l : List DailyEntry) (f : DailyEntry → Int) : Int :=
  (l.map f).sum

/-- The net balance movement contributed by a single entry. -/
def deltaLeads (e : DailyEntry) : Int :=
  e.newLeads + e.repiqueLeads.getD 0 - e.discardedLeads - e.signedLeads

theorem foldl_step_eq_sum (l : List DailyEntry) (bal : Int) :
    l.foldl step bal = bal + sumBy l deltaLeads := by
  induction l generalizing bal with
  | nil => simp [sumBy]
  | cons e t ih =>
      rw [List.foldl_cons, ih]
      simp only [sumBy, List.map_cons, List.sum_cons, step, deltaLeads]
      omega

/-- The `currentLeadBaseForMonth` loop of `monthlySummary`
(BrokerDashboard.tsx 298-305): fold the balance over the chronologically
sorted entries dated strictly before the first day of the selected month,
breaking at the first entry dated on/after it (`entry.date <
selectedMonth-01` is the lexicographic string comparison, i.e. `dateLtB`
against day 1 of the month). -/
def initialLeadsForMonth (p : BrokerProfile) (y m : Nat) : Int :=
  ((sortEntries p.dailyEntries).takeWhile
      (fun e => dateLtB e.date ⟨y, m, 1⟩)).foldl step p.initialLeads

/-- The `monthEntries` filter of `monthlySummary` (line 307):
`entry.date.startsWith(selectedMonth)` selects entries whose year and
month equal the selected month. -/
def monthEntries (p : BrokerProfile) (y m : Nat) : List DailyEntry :=
  (sortEntries p.dailyEntries).filter
    (fun e => e.date.year == y && e.date.month == m)

/-- The record returned by `monthlySummary` (lines 316-320).  The
`conversionRate` display string (floating-point `toFixed(1)`) is not
modelled; no claim depends on it. -/
structure MonthlySummary where
  newLeads : Int
  repiqueLeads : Int
  signedLeads : Int
  discardedLeads : Int
  initialLeadsForMonth : Int
  finalLeadsForMonth : Int
deriving DecidableEq

/-- `monthlySummary` (BrokerDashboard.tsx 292-321). -/
def monthlySummary (p : BrokerProfile) (y m : Nat) : MonthlySummary :=
  let mes := monthEntries p y m
  let newL := sumBy mes DailyEntry.newLeads
  let rep := sumBy mes (fun e => e.repiqueLeads.getD 0)
  let signed := sumBy mes DailyEntry.signedLeads
  let disc := sumBy mes DailyEntry.discardedLeads
  let totalIn := newL + rep
  { newLeads := newL, repiqueLeads := rep, signedLeads := signed,
    discardedLeads := disc,
    initialLeadsForMonth := initialLeadsForMonth p y m,
    finalLeadsForMonth := initialLeadsForMonth p y m + totalIn - disc - signed }

/-- The month-start balance as §4.3 of the spec words it: the
`endOfDayBalance` that the full balance projection assigns to the last
entry dated strictly before the first day of the target month, or
`initialLeads` when no entry precedes the month.  This is the spec-side
definition for the refinement claim C3; the code-side one is
`initialLeadsForMonth`. -/
def specMonthStartBalance (p : BrokerProfile) (y m : Nat) : Int :=
  (((entriesWithBalance p).filter
      (fun pe => dateLtB pe.entry.date ⟨y, m, 1⟩)).getLast?).elim
    p.initialLeads ProjectedEntry.endOfDayBalance

theorem annotate_append (bal : Int) (l1 l2 : List DailyEntry) :
    annotate bal (l1 ++ l2)
      = annotate bal l1 ++ annotate (l1.foldl step bal) l2 := by
  induction l1 generalizing bal with
  | nil => simp [annotate]
  | cons e t ih => simp [annotate, ih]

theorem mem_entry_of_mem_annotate {bal : Int} {l : List DailyEntry}
    {pe : ProjectedEntry} (h : pe ∈ annotate bal l) : pe.entry ∈ l := by
  have := List.mem_map_of_mem ProjectedEntry.entry h
  rwa [annotate_map_entry] at this

theorem dropWhile_not_lt {l : List DailyEntry} (bound : SDate)
    (hs : l.Pairwise fun a b => dateLeB a.date b.date = true) :
    ∀ e ∈ l.dropWhile (fun e => dateLtB e.date bound),
      dateLtB e.date bound = false := by
  induction l with
  | nil => simp
  | cons a t ih =>
      intro e he
      rw [List.dropWhile_cons] at he
      rcases List.pairwise_cons.mp hs with ⟨ha, ht⟩
      by_cases hpa : dateLtB a.date bound = true
      · rw [if_pos hpa] at he
        exact ih ht e he
      · rw [if_neg hpa] at he
        rcases List.mem_cons.mp he with rfl | het
        · exact Bool.eq_false_iff.mpr hpa
        · cases hpe : dateLtB e.date bound
          · rfl
          · exact absurd (dateLeB_lt_trans (ha e het) hpe) hpa

/-- C3: the code's month-start balance (fold over the prefix of sorted
entries dated strictly before the month, short-circuiting at the first
entry on/after the month start) refines the spec's definition: the
`endOfDayBalance` the full projection assigns to the last entry strictly
before the month, or `initialLeads` when none precedes it. -/
theorem month_start_balance_refines_projection
    (p : BrokerProfile) (y m : Nat) :
    initialLeadsForMonth p y m = specMonthStartBalance p y m := by
  have hs := sortEntries_sorted p.dailyEntries
  set l := sortEntries p.dailyEntries with hl
  set pred := fun e : DailyEntry => dateLtB e.date ⟨y, m, 1⟩ with hpred
  have hsplit : l.takeWhile pred ++ l.dropWhile pred = l :=
    List.takeWhile_append_dropWhile pred l
  have hfil : (entriesWithBalance p).filter
      (fun pe => dateLtB pe.entry.date ⟨y, m, 1⟩)
      = annotate p.initialLeads (l.takeWhile pred) := by
    have : entriesWithBalance p
        = annotate p.initialLeads (l.takeWhile pred)
          ++ annotate ((l.takeWhile pred).foldl step p.initialLeads)
              (l.dropWhile pred) := by
      unfold entriesWithBalance
      rw [← hl]
      conv_lhs => rw [← hsplit]
      rw [annotate_append]
    rw [this, List.filter_append]
    have h1 : (annotate p.initialLeads (l.takeWhile pred)).filter
        (fun pe => dateLtB pe.entry.date ⟨y, m, 1⟩)
        = annotate p.initialLeads (l.takeWhile pred) :=
      List.filter_eq_self.mpr (fun pe hpe => by
        simpa using List.mem_takeWhile_imp (mem_entry_of_mem_annotate hpe))
    have h2 : (annotate ((l.takeWhile pred).foldl step p.initialLeads)
        (l.dropWhile pred)).filter
        (fun pe => dateLtB pe.entry.date ⟨y, m, 1⟩) = [] :=
      List.filter_eq_nil_iff.mpr (fun pe hpe => by
        have := dropWhile_not_lt (l := l) ⟨y, m, 1⟩ hs pe.entry
          (mem_entry_of_mem_annotate hpe)
        simp [this])
    rw [h1, h2, List.append_nil]
  unfold specMonthStartBalance
  rw [hfil]
  unfold initialLeadsForMonth
  rw [← hl]
  by_cases hemp : l.takeWhile pred = []
  · rw [hemp]
    simp [annotate]
  · have hne : annotate p.initialLeads (l.takeWhile pred) ≠ [] := by
      intro hc
      apply hemp
      have hlen := annotate_length p.initialLeads (l.takeWhile pred)
      rw [hc] at hlen
      exact List.length_eq_zero.mp hlen.symm
    have hpe := List.getLast?_eq_getLast _ hne
    rw [hpe]
    exact (annotate_getLast_end _ _ _ hpe).symm

/-! ### Calendar arithmetic (used by the monthly chain and the bulk edit) -/

/-- Gregorian leap-year rule (as implemented by the JavaScript `Date`
rollover the bulk edit relies on). -/
def isLeapYear (y : Nat) : Bool :=
  y % 4 == 0 && (y % 100 != 0 || y % 400 == 0)

def daysInMonth (y m : Nat) : Nat :=
  if m == 2 then (if isLeapYear y then 29 else 28)
  else if m == 4 || m == 6 || m == 9 || m == 11 then 30
  else 31

/-- A date triple that denotes an actual calendar day. -/
def validDate (d : SDate) : Bool :=
  decide (1 ≤ d.month) && decide (d.month ≤ 12) && decide (1 ≤ d.day) &&
    decide (d.day ≤ daysInMonth d.year d.month)

theorem validDate_iff {d : SDate} :
    validDate d = true ↔
      1 ≤ d.month ∧ d.month ≤ 12 ∧ 1 ≤ d.day ∧
        d.day ≤ daysInMonth d.year d.month := by
  simp [validDate, and_assoc]

theorem daysInMonth_le_31 (y m : Nat) : daysInMonth y m ≤ 31 := by
  unfold daysInMonth
  split
  · split <;> omega
  · split <;> omega

theorem daysInMonth_pos (y m : Nat) : 1 ≤ daysInMonth y m := by
  unfold daysInMonth
  split
  · split <;> omega
  · split <;> omega

/-! ### The cross-check between the projector and the monthly aggregation -/

/-- Linear index of a calendar month, monotone along the chronological
order of valid dates. -/
def monthIdx (d : SDate) : Nat := d.year * 12 + (d.month - 1)

/-- The consecutive month indices from `a` through `b` inclusive. -/
def monthRange (a b : Nat) : List Nat :=
  (List.range (b + 1 - a)).map (a + ·)

/-- The net movement `totalLeadsIn - discardedLeads - signedLeads` of one
month, expressed through the fields of `monthlySummary`: this is exactly
what `finalLeadsForMonth` adds on top of the month-start balance. -/
def monthDelta (p : BrokerProfile) (y m : Nat) : Int :=
  (monthlySummary p y m).newLeads + (monthlySummary p y m).repiqueLeads
    - (monthlySummary p y m).discardedLeads
    - (monthlySummary p y m).signedLeads

/-- Aggregate a sequence of months in order, each month started at the
previous month's end balance (the accumulation described in §8 of the
spec). -/
def aggregateMonths (p : BrokerProfile) (ms : List Nat) : Int :=
  ms.foldl (fun bal i => bal + monthDelta p (i / 12) (i % 12 + 1))
    p.initialLeads

theorem foldl_add_sum {β : Type} (xs : List β) (g : β → Int) (b0 : Int) :
    xs.foldl (fun bal x => bal + g x) b0 = b0 + (xs.map g).sum := by
  induction xs generalizing b0 with
  | nil => simp
  | cons x t ih =>
      rw [List.foldl_cons, ih]
      simp only [List.map_cons, List.sum_cons]
      omega

theorem sumBy_fields_split (l : List DailyEntry) :
    sumBy l DailyEntry.newLeads + sumBy l (fun e => e.repiqueLeads.getD 0)
      - sumBy l DailyEntry.discardedLeads - sumBy l DailyEntry.signedLeads
    = sumBy l deltaLeads := by
  induction l with
  | nil => simp [sumBy]
  | cons e t ih =>
      simp only [sumBy, List.map_cons, List.sum_cons] at ih ⊢
      simp only [deltaLeads]
      omega

theorem monthDelta_eq (p : BrokerProfile) (y m : Nat) :
    monthDelta p y m = sumBy (monthEntries p y m) deltaLeads := by
  simp only [monthDelta, monthlySummary]
  exact sumBy_fields_split _

theorem sumBy_filter_or (l : List DailyEntry) (pb qb : DailyEntry → Bool)
    (hdisj : ∀ e, ¬(pb e = true ∧ qb e = true)) :
    sumBy (l.filter fun e => pb e || qb e) deltaLeads
      = sumBy (l.filter pb) deltaLeads + sumBy (l.filter qb) deltaLeads := by
  induction l with
  | nil => simp [sumBy]
  | cons a t ih =>
      by_cases hp : pb a = true
      · have hq : qb a = false := by
          cases hqa : qb a
          · rfl
          · exact absurd ⟨hp, hqa⟩ (hdisj a)
        simp only [List.filter_cons, hp, hq, Bool.true_or, if_pos, ite_true,
          ite_false, Bool.false_eq_true, sumBy, List.map_cons, List.sum_cons]
        simp only [sumBy] at ih
        omega
      · have hp' : pb a = false := Bool.eq_false_iff.mpr hp
        by_cases hqt : qb a = true
        · simp only [List.filter_cons, hp', hqt, Bool.false_or, ite_true,
            ite_false, Bool.false_eq_true, sumBy, List.map_cons, List.sum_cons]
          simp only [sumBy] at ih
          omega
        · have hq' : qb a = false := Bool.eq_false_iff.mpr hqt
          simp only [List.filter_cons, hp', hq', Bool.false_or, ite_false,
            Bool.false_eq_true, sumBy, List.map_cons, List.sum_cons]
          simp only [sumBy] at ih
          omega

theorem bool_eq_of_iff {x y : Bool} (h : x = true ↔ y = true) : x = y := by
  cases x <;> cases y <;> simp_all

theorem sumBy_partition (k : DailyEntry → Nat) (ms : List Nat)
    (hnd : ms.Nodup) (l : List DailyEntry) :
    ((ms.map fun i => sumBy (l.filter fun e => k e == i) deltaLeads)).sum
      = sumBy (l.filter fun e => ms.contains (k e)) deltaLeads := by
  induction ms with
  | nil => simp [sumBy]
  | cons i ms ih =>
      rcases List.nodup_cons.mp hnd with ⟨hi, hnd2⟩
      simp only [List.map_cons, List.sum_cons, ih hnd2]
      have hcongr : l.filter (fun e => (i :: ms).contains (k e))
          = l.filter (fun e => (k e == i) || ms.contains (k e)) :=
        List.filter_congr (fun e _ => by
          apply bool_eq_of_iff
          simp [List.contains_cons])
      rw [hcongr, sumBy_filter_or]
      intro e he
      rcases he with ⟨he1, he2⟩
      apply hi
      have hk : k e = i := by simpa using he1
      rw [← hk]
      exact List.elem_iff.mp he2

theorem mem_monthRange {i a b : Nat} :
    i ∈ monthRange a b ↔ a ≤ i ∧ i ≤ b := by
  simp only [monthRange, List.mem_map, List.mem_range]
  constructor
  · rintro ⟨j, hj, rfl⟩
    omega
  · rintro ⟨hab, hib⟩
    exact ⟨i - a, by omega, by omega⟩

theorem nodup_monthRange (a b : Nat) : (monthRange a b).Nodup :=
  List.Nodup.map (fun x y h => by omega) (List.nodup_range _)

theorem pairwise_head_rel {α : Type} {R : α → α → Prop} {l : List α}
    (hp : l.Pairwise R) {a : α} (ha : l.head? = some a) :
    ∀ e ∈ l, e = a ∨ R a e := by
  cases l with
  | nil => cases ha
  | cons x t =>
      simp only [List.head?_cons, Option.some.injEq] at ha
      subst ha
      intro e he
      rcases List.mem_cons.mp he with rfl | het
      · exact Or.inl rfl
      · exact Or.inr ((List.pairwise_cons.mp hp).1 e het)

theorem pairwise_getLast_rel {α : Type} {R : α → α → Prop} :
    ∀ {l : List α}, l.Pairwise R → ∀ {b : α}, l.getLast? = some b →
      ∀ e ∈ l, e = b ∨ R e b := by
  intro l
  induction l with
  | nil =>
      intro _ b hb
      cases hb
  | cons x t ih =>
      intro hp b hb e he
      cases t with
      | nil =>
          have hbx : b = x := by
            simp only [List.getLast?_singleton, Option.some.injEq] at hb
            exact hb.symm
          rcases List.mem_cons.mp he with rfl | het
          · exact Or.inl hbx.symm
          · cases het
      | cons y t2 =>
          rw [List.getLast?_cons_cons] at hb
          rcases List.pairwise_cons.mp hp with ⟨hx, ht⟩
          rcases List.mem_cons.mp he with rfl | het
          · exact Or.inr (hx b (List.mem_of_getLast?_eq_some hb))
          · exact ih ht hb e het

theorem monthIdx_mono {d1 d2 : SDate} (h1 : validDate d1 = true)
    (h2 : validDate d2 = true) (hle : dateLeB d1 d2 = true) :
    monthIdx d1 ≤ monthIdx d2 := by
  rw [validDate_iff] at h1 h2
  rw [dateLeB_iff] at hle
  unfold monthIdx
  omega

theorem inMonth_eq_monthIdx (d : SDate) (i : Nat)
    (hv : validDate d = true) :
    ((d.year == i / 12) && (d.month == i % 12 + 1)) = (monthIdx d == i) := by
  apply bool_eq_of_iff
  rw [validDate_iff] at hv
  simp only [Bool.and_eq_true, beq_iff_eq]
  unfold monthIdx
  omega

/-- C2: for a broker with at least one entry, the `endOfDayBalance` of the
last chronological entry of the full balance projection equals the
month-end balance obtained by aggregating the months from the first
entry's month through the last entry's month in order, each month started
at the previous month's end balance; and each month's `finalLeadsForMonth`
is exactly its `initialLeadsForMonth` plus that month's net movement. -/
theorem monthly_chain_cross_check (p : BrokerProfile)
    (hval : ∀ e ∈ p.dailyEntries, validDate e.date = true)
    (first lst : DailyEntry) (pe : ProjectedEntry)
    (h1 : (sortEntries p.dailyEntries).head? = some first)
    (h2 : (sortEntries p.dailyEntries).getLast? = some lst)
    (h3 : (entriesWithBalance p).getLast? = some pe) :
    aggregateMonths p (monthRange (monthIdx first.date) (monthIdx lst.date))
      = pe.endOfDayBalance
    ∧ (∀ y m : Nat, (monthlySummary p y m).finalLeadsForMonth
        = (monthlySummary p y m).initialLeadsForMonth + monthDelta p y m) := by
  constructor
  · have hsorted := sortEntries_sorted p.dailyEntries
    have hvalS : ∀ e ∈ sortEntries p.dailyEntries, validDate e.date = true :=
      fun e he => hval e ((sortEntries_perm p.dailyEntries).mem_iff.mp he)
    have hfirst_mem : first ∈ sortEntries p.dailyEntries :=
      List.mem_of_mem_head? (by rw [h1]; rfl)
    have hlst_mem : lst ∈ sortEntries p.dailyEntries :=
      List.mem_of_getLast?_eq_some h2
    unfold aggregateMonths
    rw [foldl_add_sum]
    have hmap : (monthRange (monthIdx first.date) (monthIdx lst.date)).map
        (fun i => monthDelta p (i / 12) (i % 12 + 1))
        = (monthRange (monthIdx first.date) (monthIdx lst.date)).map
            (fun i => sumBy ((sortEntries p.dailyEntries).filter
              (fun e => monthIdx e.date == i)) deltaLeads) := by
      apply List.map_congr_left
      intro i _
      rw [monthDelta_eq]
      unfold monthEntries
      congr 1
      exact List.filter_congr
        (fun e he => inMonth_eq_monthIdx e.date i (hvalS e he))
    rw [hmap, sumBy_partition _ _ (nodup_monthRange _ _)]
    have hfull : (sortEntries p.dailyEntries).filter
        (fun e => (monthRange (monthIdx first.date)
          (monthIdx lst.date)).contains (monthIdx e.date))
        = sortEntries p.dailyEntries := by
      apply List.filter_eq_self.mpr
      intro e he
      have hb1 : monthIdx first.date ≤ monthIdx e.date := by
        rcases pairwise_head_rel hsorted h1 e he with rfl | hr
        · exact Nat.le_refl _
        · exact monthIdx_mono (hvalS first hfirst_mem) (hvalS e he) hr
      have hb2 : monthIdx e.date ≤ monthIdx lst.date := by
        rcases pairwise_getLast_rel hsorted h2 e he with rfl | hr
        · exact Nat.le_refl _
        · exact monthIdx_mono (hvalS e he) (hvalS lst hlst_mem) hr
      exact List.elem_iff.mpr (mem_monthRange.mpr ⟨hb1, hb2⟩)
    rw [hfull, ← foldl_step_eq_sum]
    exact (annotate_getLast_end _ _ _ h3).symm
  · intro y m
    simp only [monthlySummary, monthDelta]
    omega

/-- Concrete two-month profile used to witness the monthly chain:
initialLeads 10; January entry moves the balance 10 → 14, February entry
moves it 14 → 15. -/
def crossMonthEntryJan : DailyEntry :=
  { date := ⟨2024, 1, 15⟩, newLeads := 4, discardedLeads := 1,
    repiqueLeads := some 2, localVisits := 0, contactingLeads := 0,
    inProgressLeads := 0, scheduledLeads := 0, negotiationLeads := 0,
    creditAnalysisLeads := 0, approvedLeads := 0, signedLeads := 1 }

def crossMonthEntryFeb : DailyEntry :=
  { date := ⟨2024, 2, 10⟩, newLeads := 3, discardedLeads := 0,
    repiqueLeads := none, localVisits := 0, contactingLeads := 0,
    inProgressLeads := 0, scheduledLeads := 0, negotiationLeads := 0,
    creditAnalysisLeads := 0, approvedLeads := 0, signedLeads := 2 }

def crossMonthProfile : BrokerProfile :=
  { brokerName := "Caio", initialLeads := 10, monthlySalesGoal := none,
    dailyEntries := [crossMonthEntryJan, crossMonthEntryFeb] }

/-- Witness for C2 at the two-month profile. -/
theorem monthly_chain_cross_check_witness :
    (∀ e ∈ crossMonthProfile.dailyEntries, validDate e.date = true)
    ∧ (sortEntries crossMonthProfile.dailyEntries).head?
        = some crossMonthEntryJan
    ∧ (sortEntries crossMonthProfile.dailyEntries).getLast?
        = some crossMonthEntryFeb
    ∧ (entriesWithBalance crossMonthProfile).getLast?
        = some { entry := crossMonthEntryFeb, startOfDayBalance := 14,
                 endOfDayBalance := 15 }
    ∧ (aggregateMonths crossMonthProfile
          (monthRange (monthIdx crossMonthEntryJan.date)
            (monthIdx crossMonthEntryFeb.date))
        = (15 : Int)
      ∧ (∀ y m : Nat,
          (monthlySummary crossMonthProfile y m).finalLeadsForMonth
            = (monthlySummary crossMonthProfile y m).initialLeadsForMonth
              + monthDelta crossMonthProfile y m)) := by
  have hs : sortEntries crossMonthProfile.dailyEntries
      = [crossMonthEntryJan, crossMonthEntryFeb] :=
    sortEntries_eq_self (by decide)
  have hhead : (sortEntries crossMonthProfile.dailyEntries).head?
      = some crossMonthEntryJan := by rw [hs]; rfl
  have hlast : (sortEntries crossMonthProfile.dailyEntries).getLast?
      = some crossMonthEntryFeb := by rw [hs]; rfl
  have hpe : (entriesWithBalance crossMonthProfile).getLast?
      = some { entry := crossMonthEntryFeb, startOfDayBalance := 14,
               endOfDayBalance := 15 } := by
    unfold entriesWithBalance
    rw [hs]
    decide
  exact ⟨by decide, hhead, hlast, hpe,
    monthly_chain_cross_check crossMonthProfile (by decide)
      crossMonthEntryJan crossMonthEntryFeb
      { entry := crossMonthEntryFeb, startOfDayBalance := 14,
        endOfDayBalance := 15 } hhead hlast hpe⟩

/-! ### Cross-broker ranking (`rankedBrokers`, BrokerDashboard.tsx 813-821) -/

/-- `totalSales = broker.dailyEntries.reduce((sum, entry) =>
sum + entry.signedLeads, 0)`. -/
def totalSales (b : BrokerProfile) : Int :=
  (b.dailyEntries.map DailyEntry.signedLeads).sum

/-- `rankedBrokers`: annotate each broker with `totalSales`, keep only
those with `totalSales > 0`, sort descending by `totalSales`
(`(a, b) => b.totalSales - a.totalSales`; JavaScript sort is stable, as is
`mergeSort`). -/
def rankedBrokers (brokers : List BrokerProfile) :
    List (BrokerProfile × Int) :=
  ((brokers.map (fun b => (b, totalSales b))).filter
      (fun x => decide (0 < x.2))).mergeSort
    (fun a b => decide (b.2 ≤ a.2))

theorem ranked_le_trans (a b c : BrokerProfile × Int)
    (hab : decide (b.2 ≤ a.2) = true) (hbc : decide (c.2 ≤ b.2) = true) :
    decide (c.2 ≤ a.2) = true := by
  simp only [decide_eq_true_eq] at hab hbc ⊢
  omega

theorem ranked_le_total (a b : BrokerProfile × Int) :
    (decide (b.2 ≤ a.2) || decide (a.2 ≤ b.2)) = true := by
  simp only [Bool.or_eq_true, decide_eq_true_eq]
  omega

/-- The four-broker example of the spec (totals 0, 5, 5, 3). -/
def saleEntry (n : Int) : DailyEntry :=
  { date := ⟨2024, 1, 1⟩, newLeads := 0, discardedLeads := 0,
    repiqueLeads := none, localVisits := 0, contactingLeads := 0,
    inProgressLeads := 0, scheduledLeads := 0, negotiationLeads := 0,
    creditAnalysisLeads := 0, approvedLeads := 0, signedLeads := n }

def rankingExample : List BrokerProfile :=
  [{ brokerName := "Ana", initialLeads := 0, monthlySalesGoal := none,
     dailyEntries := [] },
   { brokerName := "Bia", initialLeads := 0, monthlySalesGoal := none,
     dailyEntries := [saleEntry 5] },
   { brokerName := "Caio", initialLeads := 0, monthlySalesGoal := none,
     dailyEntries := [saleEntry 5] },
   { brokerName := "Duda", initialLeads := 0, monthlySalesGoal := none,
     dailyEntries := [saleEntry 3] }]

/-- C5: the ranking contains exactly the brokers whose `totalSales` is
strictly positive (as pairs with their totals), sorted descending by
`totalSales`; brokers with equal totals keep their original store order
(stability, stated as: filtering the ranking at any total value gives the
same list as filtering the unsorted store); on totals [0, 5, 5, 3] the
ranking is the two fives in original order followed by the three, the
zero excluded. -/
theorem ranking_spec (brokers : List BrokerProfile) (v : Int) :
    (rankedBrokers brokers).Perm
        ((brokers.map (fun b => (b, totalSales b))).filter
          (fun x => decide (0 < x.2)))
    ∧ (∀ x ∈ rankedBrokers brokers,
        0 < x.2 ∧ x.2 = totalSales x.1 ∧ x.1 ∈ brokers)
    ∧ (∀ b ∈ brokers, 0 < totalSales b →
        (b, totalSales b) ∈ rankedBrokers brokers)
    ∧ (rankedBrokers brokers).Pairwise (fun a b => b.2 ≤ a.2)
    ∧ ((rankedBrokers brokers).filter (fun x => x.2 == v)
        = ((brokers.map (fun b => (b, totalSales b))).filter
            (fun x => decide (0 < x.2))).filter (fun x => x.2 == v))
    ∧ (rankedBrokers rankingExample).map (fun x => (x.1.brokerName, x.2))
        = [("Bia", 5), ("Caio", 5), ("Duda", 3)] := by
  refine ⟨List.mergeSort_perm _ _, ?_, ?_, ?_, ?_, ?_⟩
  · intro x hx
    rw [rankedBrokers, List.mem_mergeSort] at hx
    rcases List.mem_filter.mp hx with ⟨hmap, hpos⟩
    rcases List.mem_map.mp hmap with ⟨b, hb, rfl⟩
    refine ⟨by simpa using hpos, rfl, hb⟩
  · intro b hb hpos
    rw [rankedBrokers, List.mem_mergeSort]
    exact List.mem_filter.mpr
      ⟨List.mem_map_of_mem _ hb, by simpa using hpos⟩
  · have := List.sorted_mergeSort ranked_le_trans ranked_le_total
      ((brokers.map (fun b => (b, totalSales b))).filter
        (fun x => decide (0 < x.2)))
    exact this.imp (fun h => by simpa using h)
  · have htrans := ranked_le_trans
    have htotal := ranked_le_total
    set l := (brokers.map (fun b => (b, totalSales b))).filter
      (fun x => decide (0 < x.2)) with hldef
    have hsub : List.Sublist (l.filter (fun x => x.2 == v)) l :=
      List.filter_sublist _
    have hcpw : (l.filter (fun x => x.2 == v)).Pairwise
        (fun a b => decide (b.2 ≤ a.2) = true) := by
      rw [List.pairwise_iff_forall_sublist]
      intro a b hab
      have ha : a ∈ l.filter (fun x => x.2 == v) :=
        hab.subset (by simp)
      have hb : b ∈ l.filter (fun x => x.2 == v) :=
        hab.subset (by simp)
      have ha2 : a.2 = v := by simpa using (List.mem_filter.mp ha).2
      have hb2 : b.2 = v := by simpa using (List.mem_filter.mp hb).2
      simp [ha2, hb2]
    have hstab : List.Sublist (l.filter (fun x => x.2 == v))
        (rankedBrokers brokers) :=
      List.sublist_mergeSort htrans htotal hcpw hsub
    have hsubfil : List.Sublist (l.filter (fun x => x.2 == v))
        ((rankedBrokers brokers).filter (fun x => x.2 == v)) := by
      have h0 := hstab.filter (fun x => x.2 == v)
      rw [List.filter_filter] at h0
      have heq : l.filter (fun a => ((a.2 == v) && (a.2 == v)))
          = l.filter (fun x => x.2 == v) :=
        List.filter_congr (fun x _ => by cases h : x.2 == v <;> simp [h])
      rwa [heq] at h0
    have hperm : (rankedBrokers brokers).filter (fun x => x.2 == v)
        |>.Perm (l.filter (fun x => x.2 == v)) :=
      (List.mergeSort_perm l _).filter _
    exact (hsubfil.eq_of_length hperm.length_eq.symm).symm
  · have hf : (rankingExample.map (fun b => (b, totalSales b))).filter
        (fun x => decide (0 < x.2))
        = [({ brokerName := "Bia", initialLeads := 0,
              monthlySalesGoal := none, dailyEntries := [saleEntry 5] }, 5),
           ({ brokerName := "Caio", initialLeads := 0,
              monthlySalesGoal := none, dailyEntries := [saleEntry 5] }, 5),
           ({ brokerName := "Duda", initialLeads := 0,
              monthlySalesGoal := none, dailyEntries := [saleEntry 3] }, 3)] := by
      decide
    have hr : rankedBrokers rankingExample
        = [({ brokerName := "Bia", initialLeads := 0,
              monthlySalesGoal := none, dailyEntries := [saleEntry 5] }, 5),
           ({ brokerName := "Caio", initialLeads := 0,
              monthlySalesGoal := none, dailyEntries := [saleEntry 5] }, 5),
           ({ brokerName := "Duda", initialLeads := 0,
              monthlySalesGoal := none, dailyEntries := [saleEntry 3] }, 3)] := by
      rw [rankedBrokers, hf]
      exact List.mergeSort_of_sorted (by decide)
    rw [hr]
    decide

/-- Witness for C5: the theorem instantiated at the example store and at
the tied total 5. -/
theorem ranking_spec_witness :
    (rankedBrokers rankingExample).Perm
        ((rankingExample.map (fun b => (b, totalSales b))).filter
          (fun x => decide (0 < x.2)))
    ∧ (∀ x ∈ rankedBrokers rankingExample,
        0 < x.2 ∧ x.2 = totalSales x.1 ∧ x.1 ∈ rankingExample)
    ∧ (∀ b ∈ rankingExample, 0 < totalSales b →
        (b, totalSales b) ∈ rankedBrokers rankingExample)
    ∧ (rankedBrokers rankingExample).Pairwise (fun a b => b.2 ≤ a.2)
    ∧ ((rankedBrokers rankingExample).filter (fun x => x.2 == (5 : Int))
        = ((rankingExample.map (fun b => (b, totalSales b))).filter
            (fun x => decide (0 < x.2))).filter
              (fun x => x.2 == (5 : Int)))
    ∧ (rankedBrokers rankingExample).map (fun x => (x.1.brokerName, x.2))
        = [("Bia", 5), ("Caio", 5), ("Duda", 3)] :=
  ranking_spec rankingExample 5

/-! ### Backup import (`handleFileChange`, BrokerDashboard.tsx 1020-1057,
and `handleRestoreBrokers`, App.tsx 168-176) -/

/-- The JSON values `JSON.parse` can produce. -/
inductive Json where
  | null : Json
  | boolVal (b : Bool) : Json
  | num (n : Int) : Json
  | str (s : String) : Json
  | arr (items : List Json) : Json
  | obj (fields : List (String × Json)) : Json

/-- JavaScript property access `item.key`: a value on objects, `undefined`
(here `none`) on everything else. -/
def getField (j : Json) (k : String) : Option Json :=
  match j with
  | .obj fs => (fs.find? (fun f => f.1 == k)).map (fun f => f.2)
  | _ => none

/-- `typeof item.key === 'string'`. -/
def isStringField (j : Json) (k : String) : Bool :=
  match getField j k with
  | some (.str _) => true
  | _ => false

/-- `typeof item.key === 'number'`. -/
def isNumberField (j : Json) (k : String) : Bool :=
  match getField j k with
  | some (.num _) => true
  | _ => false

/-- `Array.isArray(item.key)`. -/
def isArrayField (j : Json) (k : String) : Bool :=
  match getField j k with
  | some (.arr _) => true
  | _ => false

/-- The per-element check of the import validation (lines 1033-1037). -/
def validBackupRow (item : Json) : Bool :=
  isStringField item "brokerName" && isNumberField item "initialLeads" &&
    isArrayField item "dailyEntries"

/-- `Array.isArray(data) && data.every(...)` (lines 1033-1037). -/
def isValidBackup : Json → Bool
  | .arr items => items.all validBackupRow
  | _ => false

inductive ImportOutcome where
  | replaced
  | invalidFormat
  | cancelled
deriving DecidableEq

/-- The import path after a successful `JSON.parse`: an invalid shape
throws, is caught, alerts the user and leaves the store untouched; a valid
shape asks for confirmation and, when confirmed, hands the parsed array to
`onRestoreBrokers`, which replaces the whole store (its own
`Array.isArray` re-check is necessarily true here).  The store is kept at
the JSON level because the code installs the parsed value unchanged. -/
def handleFileChange (doc : Json) (confirmed : Bool)
    (store : List Json) : List Json × ImportOutcome :=
  match doc with
  | .arr items =>
      if items.all validBackupRow then
        if confirmed then (items, .replaced) else (store, .cancelled)
      else (store, .invalidFormat)
  | _ => (store, .invalidFormat)

/-- C6: a parsed document that is not an array of elements with a string
`brokerName`, numeric `initialLeads` and array `dailyEntries` is rejected
wholesale — the store is returned unchanged with the failure reported —
and in particular an array of strings is always rejected; a valid document
replaces the entire store with the imported collection once the user
confirms. -/
theorem import_validation (doc : Json) (confirmed : Bool)
    (store : List Json) :
    (isValidBackup doc = false →
      handleFileChange doc confirmed store = (store, .invalidFormat))
    ∧ (∀ items : List Json, doc = .arr items → isValidBackup doc = true →
        handleFileChange doc true store = (items, .replaced))
    ∧ (∀ s : String, handleFileChange (.arr [.str s]) confirmed store
        = (store, .invalidFormat)) := by
  refine ⟨?_, ?_, ?_⟩
  · intro hinv
    cases doc with
    | arr items =>
        simp only [isValidBackup] at hinv
        simp [handleFileChange, hinv]
    | null => rfl
    | boolVal b => rfl
    | num n => rfl
    | str s => rfl
    | obj fs => rfl
  · rintro items rfl hval
    simp only [isValidBackup] at hval
    simp [handleFileChange, hval]
  · intro s
    simp [handleFileChange, validBackupRow, isStringField, getField]

/-- Witness for C6: an array of strings is rejected with the store left
unchanged; the empty array is a valid backup and replaces the store. -/
theorem import_validation_witness :
    isValidBackup (Json.arr [Json.str "bad"]) = false
    ∧ handleFileChange (Json.arr [Json.str "bad"]) true
        [Json.str "old"] = ([Json.str "old"], ImportOutcome.invalidFormat)
    ∧ handleFileChange (Json.arr []) true [Json.str "old"]
        = ([], ImportOutcome.replaced) := by
  refine ⟨rfl, ?_, ?_⟩
  · exact (import_validation (Json.arr [Json.str "bad"]) true
      [Json.str "old"]).1 rfl
  · exact (import_validation (Json.arr []) true [Json.str "old"]).2.1 [] rfl rfl

/-! ### Ledger store operations (App.tsx) -/

inductive StoreError where
  | duplicateName
deriving DecidableEq

/-- The comparison key of `name.toLowerCase()`: character-wise lowering of
the name. -/
def lowerName (s : String) : List Char :=
  s.data.map Char.toLower

/-- `handleAddBroker` (App.tsx 62-74): rejects with an alert when an
existing broker name matches case-insensitively (the early `return` leaves
the store untouched); otherwise appends the new profile with empty
`dailyEntries`. -/
def handleAddBroker (brokers : List BrokerProfile) (brokerName : String)
    (initialLeads : Int) (monthlySalesGoal : Int) :
    Except StoreError (List BrokerProfile) :=
  if brokers.any (fun b => lowerName b.brokerName == lowerName brokerName) then
    .error .duplicateName
  else
    .ok (brokers ++
      [{ brokerName := brokerName, initialLeads := initialLeads,
         monthlySalesGoal := some monthlySalesGoal, dailyEntries := [] }])

/-- C7: `add` fails with DuplicateName exactly when some existing profile
name matches the new name case-insensitively (so adding Ana then ana
fails); on success it appends exactly one profile with the given fields
and empty `dailyEntries`, leaving the existing profiles unchanged (and on
failure it returns no new store at all). -/
theorem add_broker_duplicate (brokers : List BrokerProfile)
    (name : String) (init goal : Int) :
    (handleAddBroker brokers name init goal = .error .duplicateName ↔
      ∃ b ∈ brokers, lowerName b.brokerName = lowerName name)
    ∧ (∀ res, handleAddBroker brokers name init goal = .ok res →
        res = brokers ++
          [{ brokerName := name, initialLeads := init,
             monthlySalesGoal := some goal, dailyEntries := [] }])
    ∧ (∀ res2, handleAddBroker [] "Ana" init goal = .ok res2 →
        handleAddBroker res2 "ana" init goal = .error .duplicateName) := by
  have hcase : (handleAddBroker brokers name init goal
        = .error .duplicateName) ↔
      brokers.any (fun b => lowerName b.brokerName == lowerName name)
        = true := by
    unfold handleAddBroker
    by_cases hc : brokers.any
        (fun b => lowerName b.brokerName == lowerName name) = true
    · simp [hc]
    · simp [hc]
  refine ⟨?_, ?_, ?_⟩
  · rw [hcase, List.any_eq_true]
    constructor
    · rintro ⟨b, hb, hbe⟩
      exact ⟨b, hb, by simpa using hbe⟩
    · rintro ⟨b, hb, hbe⟩
      exact ⟨b, hb, by simpa using hbe⟩
  · intro res hres
    unfold handleAddBroker at hres
    by_cases hc : brokers.any
        (fun b => lowerName b.brokerName == lowerName name) = true
    · rw [if_pos hc] at hres
      cases hres
    · rw [if_neg hc] at hres
      exact (Except.ok.inj hres).symm
  · intro res2 hres2
    unfold handleAddBroker at hres2
    rw [if_neg (by simp)] at hres2
    have hr : res2 =
        [{ brokerName := "Ana", initialLeads := init,
           monthlySalesGoal := some goal, dailyEntries := [] }] :=
      (Except.ok.inj hres2).symm
    subst hr
    unfold handleAddBroker
    have hc2 : (List.any
        ([{ brokerName := "Ana", initialLeads := init,
            monthlySalesGoal := some goal, dailyEntries := [] }]
          : List BrokerProfile)
        (fun b => lowerName b.brokerName == lowerName "ana")) = true := by
      simp only [List.any_cons, List.any_nil, Bool.or_false]
      decide
    rw [if_pos hc2]

/-- Witness for C7: adding "ana" to a store holding "Ana" fails with
DuplicateName. -/
theorem add_broker_duplicate_witness :
    ((handleAddBroker [exampleProfile] "ana" 1 2 = .error .duplicateName ↔
      ∃ b ∈ [exampleProfile], lowerName b.brokerName = lowerName "ana")
    ∧ (∀ res, handleAddBroker [exampleProfile] "ana" 1 2 = .ok res →
        res = [exampleProfile] ++
          [{ brokerName := "ana", initialLeads := 1,
             monthlySalesGoal := some 2, dailyEntries := [] }])
    ∧ (∀ res2, handleAddBroker [] "Ana" 1 2 = .ok res2 →
        handleAddBroker res2 "ana" 1 2 = .error .duplicateName))
    ∧ handleAddBroker [exampleProfile] "ana" 1 2
        = .error .duplicateName :=
  ⟨add_broker_duplicate [exampleProfile] "ana" 1 2, rfl⟩

/-- `handleUpdateBroker` (App.tsx 76-103): when the name changed
(case-insensitively) and collides with an existing profile, fail with an
alert and no store change; otherwise replace name/initialLeads/goal on the
profile(s) named `originalName`, keeping `dailyEntries`, and leave every
other profile untouched. -/
def handleUpdateBroker (brokers : List BrokerProfile)
    (originalName newName : String) (newInitialLeads newGoal : Int) :
    Except StoreError (List BrokerProfile) :=
  if lowerName originalName != lowerName newName
      && brokers.any (fun b => lowerName b.brokerName == lowerName newName)
  then .error .duplicateName
  else .ok (brokers.map (fun b =>
    if b.brokerName == originalName then
      { brokerName := newName, initialLeads := newInitialLeads,
        monthlySalesGoal := some newGoal, dailyEntries := b.dailyEntries }
    else b))

/-- C8: a successful update of the broker named `originalName` replaces
only that profile's `brokerName`, `initialLeads` and `monthlySalesGoal`,
preserves its `dailyEntries` element-for-element, and leaves every other
profile unchanged (position by position). -/
theorem update_broker_frame (brokers : List BrokerProfile)
    (originalName newName : String) (newInit newGoal : Int)
    (res : List BrokerProfile)
    (h : handleUpdateBroker brokers originalName newName newInit newGoal
      = .ok res) :
    res.length = brokers.length
    ∧ ∀ (i : Nat) (b : BrokerProfile), brokers[i]? = some b →
        (b.brokerName ≠ originalName → res[i]? = some b)
        ∧ (b.brokerName = originalName →
            res[i]? = some
              { brokerName := newName, initialLeads := newInit,
                monthlySalesGoal := some newGoal,
                dailyEntries := b.dailyEntries }) := by
  unfold handleUpdateBroker at h
  by_cases hc : (lowerName originalName != lowerName newName
      && brokers.any
        (fun b => lowerName b.brokerName == lowerName newName)) = true
  · rw [if_pos hc] at h
    cases h
  · rw [if_neg hc] at h
    have hres : res = brokers.map (fun b =>
        if b.brokerName == originalName then
          { brokerName := newName, initialLeads := newInit,
            monthlySalesGoal := some newGoal,
            dailyEntries := b.dailyEntries }
        else b) := (Except.ok.inj h).symm
    subst hres
    refine ⟨List.length_map _ _, ?_⟩
    intro i b hb
    constructor
    · intro hne
      simp [List.getElem?_map, hb, hne]
    · intro heq
      simp [List.getElem?_map, hb, heq]

/-- The store of `update_broker_frame_witness` after renaming Ana to
Alice. -/
def updatedRankingExample : List BrokerProfile :=
  [{ brokerName := "Alice", initialLeads := 7, monthlySalesGoal := some 1,
     dailyEntries := [] },
   { brokerName := "Bia", initialLeads := 0, monthlySalesGoal := none,
     dailyEntries := [saleEntry 5] },
   { brokerName := "Caio", initialLeads := 0, monthlySalesGoal := none,
     dailyEntries := [saleEntry 5] },
   { brokerName := "Duda", initialLeads := 0, monthlySalesGoal := none,
     dailyEntries := [saleEntry 3] }]

/-- Witness for C8: renaming Ana to Alice in the four-broker store. -/
theorem update_broker_frame_witness :
    handleUpdateBroker rankingExample "Ana" "Alice" 7 1
      = .ok updatedRankingExample
    ∧ (updatedRankingExample.length = rankingExample.length
      ∧ ∀ (i : Nat) (b : BrokerProfile), rankingExample[i]? = some b →
          (b.brokerName ≠ "Ana" → updatedRankingExample[i]? = some b)
          ∧ (b.brokerName = "Ana" →
              updatedRankingExample[i]? = some
                { brokerName := "Alice", initialLeads := 7,
                  monthlySalesGoal := some 1,
                  dailyEntries := b.dailyEntries })) :=
  ⟨rfl, update_broker_frame rankingExample "Ana" "Alice" 7 1
    updatedRankingExample rfl⟩

/-- The entry upsert of `handleSaveEntry` (App.tsx 127-150): replace the
entry at the same date when one exists (`findIndex` + assignment),
otherwise append. -/
def upsertEntry (entries : List DailyEntry) (entry : DailyEntry) :
    List DailyEntry :=
  match entries.findIdx? (fun e => e.date == entry.date) with
  | some i => entries.set i entry
  | none => entries ++ [entry]

/-- `handleSaveEntry` lifted to the whole store: only the selected
broker's entry list is upserted. -/
def handleSaveEntry (brokers : List BrokerProfile) (selectedName : String)
    (entry : DailyEntry) : List BrokerProfile :=
  brokers.map (fun b =>
    if b.brokerName == selectedName then
      { b with dailyEntries := upsertEntry b.dailyEntries entry }
    else b)

/-- `handleDeleteEntry` (App.tsx 152-166): drop the selected broker's
entry with the given date. -/
def handleDeleteEntry (brokers : List BrokerProfile)
    (selectedName : String) (date : SDate) : List BrokerProfile :=
  brokers.map (fun b =>
    if b.brokerName == selectedName then
      { b with
        dailyEntries := b.dailyEntries.filter (fun e => e.date != date) }
    else b)

theorem set_get_self {α : Type} (l : List α) (i : Nat)
    (h : i < l.length) : l.set i (l.get ⟨i, h⟩) = l := by
  induction l generalizing i with
  | nil => simp at h
  | cons a t ih =>
      cases i with
      | zero => simp
      | succ j =>
          simp only [List.set_cons_succ, List.get_cons_succ]
          rw [ih]

theorem upsertEntry_dates_nodup {entries : List DailyEntry}
    (h : (entries.map DailyEntry.date).Nodup) (entry : DailyEntry) :
    ((upsertEntry entries entry).map DailyEntry.date).Nodup := by
  unfold upsertEntry
  cases hf : entries.findIdx? (fun e => e.date == entry.date) with
  | none =>
      have hnm : entry.date ∉ entries.map DailyEntry.date := by
        intro hc
        rcases List.mem_map.mp hc with ⟨e, he, hde⟩
        have := List.findIdx?_eq_none_iff.mp hf e he
        rw [hde] at this
        simp at this
      rw [List.map_append]
      rw [List.nodup_append]
      refine ⟨h, List.nodup_singleton _, ?_⟩
      intro x hx hx1
      rcases List.mem_singleton.mp hx1 with rfl
      exact hnm hx
  | some i =>
      rcases List.findIdx?_eq_some_iff_getElem.mp hf with ⟨hi, hp, _⟩
      have hdate : entries[i].date = entry.date := by simpa using hp
      rw [List.map_set]
      have hlen : i < (entries.map DailyEntry.date).length := by
        rw [List.length_map]
        exact hi
      have hval2 : entry.date
          = (entries.map DailyEntry.date).get ⟨i, hlen⟩ := by
        simp [hdate]
      rw [hval2, set_get_self]
      exact h

/-- C9: if every profile's entry dates are pairwise distinct, then after
any entry upsert (replace-at-date or append) and after any delete-by-date
the dates of every profile's entries are still pairwise distinct. -/
theorem entry_date_invariant (brokers : List BrokerProfile)
    (selectedName : String) (entry : DailyEntry) (date : SDate)
    (h : ∀ b ∈ brokers, (b.dailyEntries.map DailyEntry.date).Nodup) :
    (∀ b ∈ handleSaveEntry brokers selectedName entry,
      (b.dailyEntries.map DailyEntry.date).Nodup)
    ∧ (∀ b ∈ handleDeleteEntry brokers selectedName date,
      (b.dailyEntries.map DailyEntry.date).Nodup) := by
  constructor
  · intro b hb
    rcases List.mem_map.mp hb with ⟨b0, hb0, rfl⟩
    by_cases hn : (b0.brokerName == selectedName) = true
    · simp only [hn, if_pos]
      exact upsertEntry_dates_nodup (h b0 hb0) entry
    · simp only [Bool.not_eq_true] at hn
      simp only [hn, Bool.false_eq_true, if_false]
      exact h b0 hb0
  · intro b hb
    rcases List.mem_map.mp hb with ⟨b0, hb0, rfl⟩
    by_cases hn : (b0.brokerName == selectedName) = true
    · simp only [hn, if_pos]
      have hsub : List.Sublist
          ((b0.dailyEntries.filter (fun e => e.date != date)).map
            DailyEntry.date)
          (b0.dailyEntries.map DailyEntry.date) :=
        (List.filter_sublist _).map _
      exact (h b0 hb0).sublist hsub
    · simp only [Bool.not_eq_true] at hn
      simp only [hn, Bool.false_eq_true, if_false]
      exact h b0 hb0

/-- Witness for C9: upserting a replacement for the January entry and
deleting a date in the two-entry profile store both preserve the
one-entry-per-date invariant. -/
theorem entry_date_invariant_witness :
    (∀ b ∈ [crossMonthProfile],
      (b.dailyEntries.map DailyEntry.date).Nodup)
    ∧ ((∀ b ∈ handleSaveEntry [crossMonthProfile] "Caio" overdiscardEntry,
        (b.dailyEntries.map DailyEntry.date).Nodup)
      ∧ (∀ b ∈ handleDeleteEntry [crossMonthProfile] "Caio" ⟨2024, 1, 15⟩,
        (b.dailyEntries.map DailyEntry.date).Nodup)) :=
  ⟨by decide, entry_date_invariant [crossMonthProfile] "Caio"
    overdiscardEntry ⟨2024, 1, 15⟩ (by decide)⟩

/-! ### Bulk edit (`handleBulkSave`, BrokerDashboard.tsx 428-473) -/

/-- The JavaScript `currentDate.setDate(currentDate.getDate() + 1)`
rollover: next calendar day. -/
def nextDay (d : SDate) : SDate :=
  if d.day < daysInMonth d.year d.month then ⟨d.year, d.month, d.day + 1⟩
  else if d.month < 12 then ⟨d.year, d.month + 1, 1⟩
  else ⟨d.year + 1, 1, 1⟩

/-- An injection of valid dates into `Nat` compatible with `dateLeB`
(months weigh 50, days at most 31 of them). -/
def ordKey (d : SDate) : Nat := d.year * 1000 + d.month * 50 + d.day

/-- The `while (currentDate <= endDate)` loop of `handleBulkSave`, with an
explicit fuel; `dayRange` supplies enough fuel for the loop to run to
completion, so the pair models the unbounded source loop exactly. -/
def dayRangeAux : Nat → SDate → SDate → List SDate
  | 0, _, _ => []
  | fuel + 1, c, e =>
      if dateLeB c e then c :: dayRangeAux fuel (nextDay c) e else []

/-- All calendar days from `c` through `e` inclusive. -/
def dayRange (c e : SDate) : List SDate :=
  dayRangeAux (ordKey e + 1 - ordKey c) c e

theorem validDate_nextDay {d : SDate} (h : validDate d = true) :
    validDate (nextDay d) = true := by
  rw [validDate_iff] at h
  unfold nextDay
  by_cases h1 : d.day < daysInMonth d.year d.month
  · rw [if_pos h1, validDate_iff]
    dsimp only
    exact ⟨h.1, h.2.1, by omega, by omega⟩
  · rw [if_neg h1]
    by_cases h2 : d.month < 12
    · rw [if_pos h2, validDate_iff]
      dsimp only
      exact ⟨by omega, by omega, by omega, daysInMonth_pos _ _⟩
    · rw [if_neg h2, validDate_iff]
      dsimp only
      exact ⟨by omega, by omega, by omega, daysInMonth_pos _ _⟩

theorem ordKey_lt_nextDay {d : SDate} (h : validDate d = true) :
    ordKey d < ordKey (nextDay d) := by
  rw [validDate_iff] at h
  have h31 := daysInMonth_le_31 d.year d.month
  unfold nextDay
  by_cases h1 : d.day < daysInMonth d.year d.month
  · rw [if_pos h1]
    dsimp only [ordKey]
    omega
  · rw [if_neg h1]
    by_cases h2 : d.month < 12
    · rw [if_pos h2]
      dsimp only [ordKey]
      omega
    · rw [if_neg h2]
      dsimp only [ordKey]
      omega

theorem ordKey_le_of_dateLeB {c e : SDate} (hc : validDate c = true)
    (h : dateLeB c e = true) : ordKey c ≤ ordKey e := by
  rw [validDate_iff] at hc
  rw [dateLeB_iff] at h
  have h31 := daysInMonth_le_31 c.year c.month
  unfold ordKey
  omega

theorem dateLeB_nextDay {d : SDate} (h : validDate d = true) :
    dateLeB d (nextDay d) = true := by
  rw [validDate_iff] at h
  unfold nextDay
  by_cases h1 : d.day < daysInMonth d.year d.month
  · rw [if_pos h1, dateLeB_iff]
    dsimp only
    omega
  · rw [if_neg h1]
    by_cases h2 : d.month < 12
    · rw [if_pos h2, dateLeB_iff]
      dsimp only
      omega
    · rw [if_neg h2, dateLeB_iff]
      dsimp only
      omega

theorem dateLtB_nextDay {d : SDate} (h : validDate d = true) :
    dateLtB d (nextDay d) = true := by
  rw [validDate_iff] at h
  unfold nextDay
  by_cases h1 : d.day < daysInMonth d.year d.month
  · rw [if_pos h1, dateLtB_iff]
    dsimp only
    omega
  · rw [if_neg h1]
    by_cases h2 : d.month < 12
    · rw [if_pos h2, dateLtB_iff]
      dsimp only
      omega
    · rw [if_neg h2, dateLtB_iff]
      dsimp only
      omega

theorem dateLtB_le_trans {a b c : SDate} (h1 : dateLtB a b = true)
    (h2 : dateLeB b c = true) : dateLtB a c = true := by
  rw [dateLtB_iff] at h1 ⊢
  rw [dateLeB_iff] at h2
  omega

/-- `nextDay` is the successor among valid dates: any valid strictly later
day is at least the next day. -/
theorem nextDay_le_of_lt {c d : SDate} (hc : validDate c = true)
    (hd : validDate d = true) (h : dateLtB c d = true) :
    dateLeB (nextDay c) d = true := by
  rw [validDate_iff] at hc hd
  rw [dateLtB_iff] at h
  unfold nextDay
  by_cases hym : c.year = d.year ∧ c.month = d.month
  · have hdim : daysInMonth d.year d.month = daysInMonth c.year c.month := by
      rw [← hym.1, ← hym.2]
    by_cases h1 : c.day < daysInMonth c.year c.month
    · rw [if_pos h1, dateLeB_iff]
      dsimp only
      omega
    · rw [if_neg h1]
      by_cases h2 : c.month < 12
      · rw [if_pos h2, dateLeB_iff]
        dsimp only
        omega
      · rw [if_neg h2, dateLeB_iff]
        dsimp only
        omega
  · by_cases h1 : c.day < daysInMonth c.year c.month
    · rw [if_pos h1, dateLeB_iff]
      dsimp only
      omega
    · rw [if_neg h1]
      by_cases h2 : c.month < 12
      · rw [if_pos h2, dateLeB_iff]
        dsimp only
        omega
      · rw [if_neg h2, dateLeB_iff]
        dsimp only
        omega

theorem mem_dayRangeAux (e : SDate) :
    ∀ (fuel : Nat) (c : SDate), validDate c = true →
      ordKey e + 1 - ordKey c ≤ fuel →
      ∀ d : SDate, d ∈ dayRangeAux fuel c e ↔
        (validDate d = true ∧ dateLeB c d = true ∧ dateLeB d e = true) := by
  intro fuel
  induction fuel with
  | zero =>
      intro c hc hf d
      simp only [dayRangeAux, List.not_mem_nil, false_iff]
      rintro ⟨hd, hcd, hde⟩
      have g1 := ordKey_le_of_dateLeB hc hcd
      have g2 := ordKey_le_of_dateLeB hd hde
      omega
  | succ fuel ih =>
      intro c hc hf d
      simp only [dayRangeAux]
      by_cases hce : dateLeB c e = true
      · rw [if_pos hce]
        have hnext := validDate_nextDay hc
        have hfuel2 : ordKey e + 1 - ordKey (nextDay c) ≤ fuel := by
          have g1 := ordKey_lt_nextDay hc
          have g2 := ordKey_le_of_dateLeB hc hce
          omega
        constructor
        · intro hmem
          rcases List.mem_cons.mp hmem with rfl | hmem2
          · exact ⟨hc, dateLeB_refl _, hce⟩
          · rcases (ih (nextDay c) hnext hfuel2 d).mp hmem2 with
              ⟨hd, hcd, hde⟩
            exact ⟨hd, dateLeB_trans (dateLeB_nextDay hc) hcd, hde⟩
        · rintro ⟨hd, hcd, hde⟩
          by_cases hdc : d = c
          · subst hdc
            exact List.mem_cons_self _ _
          · have hlt : dateLtB c d = true :=
              dateLtB_of_dateLeB_of_ne hcd (fun hcc => hdc hcc.symm)
            exact List.mem_cons_of_mem _
              ((ih (nextDay c) hnext hfuel2 d).mpr
                ⟨hd, nextDay_le_of_lt hc hd hlt, hde⟩)
      · rw [if_neg hce]
        simp only [List.not_mem_nil, false_iff]
        rintro ⟨hd, hcd, hde⟩
        exact hce (dateLeB_trans hcd hde)

theorem mem_dayRange {c e : SDate} (hc : validDate c = true) (d : SDate) :
    d ∈ dayRange c e ↔
      (validDate d = true ∧ dateLeB c d = true ∧ dateLeB d e = true) :=
  mem_dayRangeAux e _ c hc (Nat.le_refl _) d

theorem dayRangeAux_ge (e : SDate) :
    ∀ (fuel : Nat) (c : SDate), validDate c = true →
      ∀ d ∈ dayRangeAux fuel c e, dateLeB c d = true := by
  intro fuel
  induction fuel with
  | zero =>
      intro c _ d hd
      simp [dayRangeAux] at hd
  | succ fuel ih =>
      intro c hc d hd
      simp only [dayRangeAux] at hd
      by_cases hce : dateLeB c e = true
      · rw [if_pos hce] at hd
        rcases List.mem_cons.mp hd with rfl | hd2
        · exact dateLeB_refl _
        · exact dateLeB_trans (dateLeB_nextDay hc)
            (ih (nextDay c) (validDate_nextDay hc) d hd2)
      · rw [if_neg hce] at hd
        cases hd

theorem dayRangeAux_pairwise (e : SDate) :
    ∀ (fuel : Nat) (c : SDate), validDate c = true →
      (dayRangeAux fuel c e).Pairwise (fun a b => dateLtB a b = true) := by
  intro fuel
  induction fuel with
  | zero =>
      intro c _
      simp [dayRangeAux]
  | succ fuel ih =>
      intro c hc
      simp only [dayRangeAux]
      by_cases hce : dateLeB c e = true
      · rw [if_pos hce]
        refine List.pairwise_cons.mpr
          ⟨?_, ih (nextDay c) (validDate_nextDay hc)⟩
        intro d hd
        exact dateLtB_le_trans (dateLtB_nextDay hc)
          (dayRangeAux_ge e fuel (nextDay c) (validDate_nextDay hc) d hd)
      · rw [if_neg hce]
        exact List.Pairwise.nil

/-- The bulk form state: an empty input (`''`) is `none`, a typed number
is `some n`. -/
structure BulkDailyData where
  newLeads : Option Int
  discardedLeads : Option Int
  repiqueLeads : Option Int
  localVisits : Option Int
  contactingLeads : Option Int
  inProgressLeads : Option Int
  scheduledLeads : Option Int
  negotiationLeads : Option Int
  creditAnalysisLeads : Option Int
  approvedLeads : Option Int
  signedLeads : Option Int
deriving DecidableEq

/-- One field of the bulk entry:
`typeof bulkDailyData.f === 'number' ? bulkDailyData.f
  : (existingEntry?.f ?? 0)`. -/
def bulkField (bulkVal existingVal : Option Int) : Int :=
  match bulkVal with
  | some v => v
  | none => existingVal.getD 0

theorem bulkField_eq (b v : Option Int) :
    bulkField b v = b.getD (v.getD 0) := by
  cases b <;> rfl

/-- The `updatedEntry` built for one day of the bulk loop
(BrokerDashboard.tsx 449-462). -/
def mkBulkEntry (bulk : BulkDailyData) (existing : Option DailyEntry)
    (d : SDate) : DailyEntry :=
  { date := d,
    newLeads := bulkField bulk.newLeads
      (existing.map DailyEntry.newLeads),
    discardedLeads := bulkField bulk.discardedLeads
      (existing.map DailyEntry.discardedLeads),
    repiqueLeads := some (bulkField bulk.repiqueLeads
      (existing.bind DailyEntry.repiqueLeads)),
    localVisits := bulkField bulk.localVisits
      (existing.map DailyEntry.localVisits),
    contactingLeads := bulkField bulk.contactingLeads
      (existing.map DailyEntry.contactingLeads),
    inProgressLeads := bulkField bulk.inProgressLeads
      (existing.map DailyEntry.inProgressLeads),
    scheduledLeads := bulkField bulk.scheduledLeads
      (existing.map DailyEntry.scheduledLeads),
    negotiationLeads := bulkField bulk.negotiationLeads
      (existing.map DailyEntry.negotiationLeads),
    creditAnalysisLeads := bulkField bulk.creditAnalysisLeads
      (existing.map DailyEntry.creditAnalysisLeads),
    approvedLeads := bulkField bulk.approvedLeads
      (existing.map DailyEntry.approvedLeads),
    signedLeads := bulkField bulk.signedLeads
      (existing.map DailyEntry.signedLeads) }

/-- `handleBulkSave` on the selected broker's entry list: reject when the
start date is after the end date; otherwise run one `onSaveEntry` upsert
for each day of the inclusive range, the per-day entry built from the
bulk form and the day's pre-existing entry of the (render-time) profile. -/
def handleBulkSave (p : BrokerProfile) (bulk : BulkDailyData)
    (startDate endDate : SDate) : Option (List DailyEntry) :=
  if dateLtB endDate startDate then none
  else some ((dayRange startDate endDate).foldl
    (fun entries d => upsertEntry entries
      (mkBulkEntry bulk (p.dailyEntries.find? (fun x => x.date == d)) d))
    p.dailyEntries)

/-- C10: with start not after end, the bulk save performs exactly one
upsert per calendar day of the inclusive range `[startDate, endDate]`
(the iterated days are exactly the valid dates between the two bounds,
each exactly once, in order), and each day's entry takes every one of the
eleven counter fields from the bulk form when a number was entered there,
otherwise from the day's pre-existing entry when one exists, otherwise 0;
with start after end the bulk save is rejected and performs nothing. -/
theorem bulk_save_range (p : BrokerProfile) (bulk : BulkDailyData)
    (s e : SDate) (hs : validDate s = true) :
    (dateLtB e s = true → handleBulkSave p bulk s e = none)
    ∧ (dateLtB e s = false → handleBulkSave p bulk s e
        = some ((dayRange s e).foldl
            (fun entries d => upsertEntry entries
              (mkBulkEntry bulk
                (p.dailyEntries.find? (fun x => x.date == d)) d))
            p.dailyEntries))
    ∧ (∀ d : SDate, d ∈ dayRange s e ↔
        (validDate d = true ∧ dateLeB s d = true ∧ dateLeB d e = true))
    ∧ (dayRange s e).Pairwise (fun a b => dateLtB a b = true)
    ∧ (∀ (ex : Option DailyEntry) (d : SDate),
        (mkBulkEntry bulk ex d).date = d
        ∧ (mkBulkEntry bulk ex d).newLeads
            = bulk.newLeads.getD ((ex.map DailyEntry.newLeads).getD 0)
        ∧ (mkBulkEntry bulk ex d).discardedLeads
            = bulk.discardedLeads.getD
                ((ex.map DailyEntry.discardedLeads).getD 0)
        ∧ (mkBulkEntry bulk ex d).repiqueLeads
            = some (bulk.repiqueLeads.getD
                ((ex.bind DailyEntry.repiqueLeads).getD 0))
        ∧ (mkBulkEntry bulk ex d).localVisits
            = bulk.localVisits.getD ((ex.map DailyEntry.localVisits).getD 0)
        ∧ (mkBulkEntry bulk ex d).contactingLeads
            = bulk.contactingLeads.getD
                ((ex.map DailyEntry.contactingLeads).getD 0)
        ∧ (mkBulkEntry bulk ex d).inProgressLeads
            = bulk.inProgressLeads.getD
                ((ex.map DailyEntry.inProgressLeads).getD 0)
        ∧ (mkBulkEntry bulk ex d).scheduledLeads
            = bulk.scheduledLeads.getD
                ((ex.map DailyEntry.scheduledLeads).getD 0)
        ∧ (mkBulkEntry bulk ex d).negotiationLeads
            = bulk.negotiationLeads.getD
                ((ex.map DailyEntry.negotiationLeads).getD 0)
        ∧ (mkBulkEntry bulk ex d).creditAnalysisLeads
            = bulk.creditAnalysisLeads.getD
                ((ex.map DailyEntry.creditAnalysisLeads).getD 0)
        ∧ (mkBulkEntry bulk ex d).approvedLeads
            = bulk.approvedLeads.getD
                ((ex.map DailyEntry.approvedLeads).getD 0)
        ∧ (mkBulkEntry bulk ex d).signedLeads
            = bulk.signedLeads.getD
                ((ex.map DailyEntry.signedLeads).getD 0)) := by
  refine ⟨?_, ?_, mem_dayRange hs, ?_, ?_⟩
  · intro h
    unfold handleBulkSave
    rw [if_pos h]
  · intro h
    unfold handleBulkSave
    rw [if_neg (by simp [h])]
  · exact dayRangeAux_pairwise e _ s hs
  · intro ex d
    refine ⟨rfl, ?_, ?_, ?_, ?_, ?_, ?_, ?_, ?_, ?_, ?_, ?_⟩ <;>
      simp only [mkBulkEntry, bulkField_eq]

/-- The bulk form data of the witness: three numbers entered, the other
eight fields left empty. -/
def exampleBulkData : BulkDailyData :=
  { newLeads := some 1, discardedLeads := none, repiqueLeads := some 0,
    localVisits := none, contactingLeads := none, inProgressLeads := none,
    scheduledLeads := none, negotiationLeads := none,
    creditAnalysisLeads := none, approvedLeads := none,
    signedLeads := some 2 }

set_option maxHeartbeats 2000000 in
/-- Witness for C10 across the 2024 leap-year February boundary: the
inclusive range 2024-02-28 .. 2024-03-01 is the three days 02-28, 02-29,
03-01. -/
theorem bulk_save_range_witness :
    validDate ⟨2024, 2, 28⟩ = true
    ∧ dayRange ⟨2024, 2, 28⟩ ⟨2024, 3, 1⟩
        = [⟨2024, 2, 28⟩, ⟨2024, 2, 29⟩, ⟨2024, 3, 1⟩]
    ∧ ((dateLtB ⟨2024, 3, 1⟩ ⟨2024, 2, 28⟩ = true →
        handleBulkSave crossMonthProfile exampleBulkData
          ⟨2024, 2, 28⟩ ⟨2024, 3, 1⟩ = none)
      ∧ (dateLtB ⟨2024, 3, 1⟩ ⟨2024, 2, 28⟩ = false →
          handleBulkSave crossMonthProfile exampleBulkData
            ⟨2024, 2, 28⟩ ⟨2024, 3, 1⟩
          = some ((dayRange ⟨2024, 2, 28⟩ ⟨2024, 3, 1⟩).foldl
              (fun entries d => upsertEntry entries
                (mkBulkEntry exampleBulkData
                  (crossMonthProfile.dailyEntries.find?
                    (fun x => x.date == d)) d))
              crossMonthProfile.dailyEntries))
      ∧ (∀ d : SDate, d ∈ dayRange ⟨2024, 2, 28⟩ ⟨2024, 3, 1⟩ ↔
          (validDate d = true ∧ dateLeB ⟨2024, 2, 28⟩ d = true
            ∧ dateLeB d ⟨2024, 3, 1⟩ = true))
      ∧ (dayRange ⟨2024, 2, 28⟩ ⟨2024, 3, 1⟩).Pairwise
          (fun a b => dateLtB a b = true)
      ∧ (∀ (ex : Option DailyEntry) (d : SDate),
          (mkBulkEntry exampleBulkData ex d).date = d
          ∧ (mkBulkEntry exampleBulkData ex d).newLeads
              = exampleBulkData.newLeads.getD
                  ((ex.map DailyEntry.newLeads).getD 0)
          ∧ (mkBulkEntry exampleBulkData ex d).discardedLeads
              = exampleBulkData.discardedLeads.getD
                  ((ex.map DailyEntry.discardedLeads).getD 0)
          ∧ (mkBulkEntry exampleBulkData ex d).repiqueLeads
              = some (exampleBulkData.repiqueLeads.getD
                  ((ex.bind DailyEntry.repiqueLeads).getD 0))
          ∧ (mkBulkEntry exampleBulkData ex d).localVisits
              = exampleBulkData.localVisits.getD
                  ((ex.map DailyEntry.localVisits).getD 0)
          ∧ (mkBulkEntry exampleBulkData ex d).contactingLeads
              = exampleBulkData.contactingLeads.getD
                  ((ex.map DailyEntry.contactingLeads).getD 0)
          ∧ (mkBulkEntry exampleBulkData ex d).inProgressLeads
              = exampleBulkData.inProgressLeads.getD
                  ((ex.map DailyEntry.inProgressLeads).getD 0)
          ∧ (mkBulkEntry exampleBulkData ex d).scheduledLeads
              = exampleBulkData.scheduledLeads.getD
                  ((ex.map DailyEntry.scheduledLeads).getD 0)
          ∧ (mkBulkEntry exampleBulkData ex d).negotiationLeads
              = exampleBulkData.negotiationLeads.getD
                  ((ex.map DailyEntry.negotiationLeads).getD 0)
          ∧ (mkBulkEntry exampleBulkData ex d).creditAnalysisLeads
              = exampleBulkData.creditAnalysisLeads.getD
                  ((ex.map DailyEntry.creditAnalysisLeads).getD 0)
          ∧ (mkBulkEntry exampleBulkData ex d).approvedLeads
              = exampleBulkData.approvedLeads.getD
                  ((ex.map DailyEntry.approvedLeads).getD 0)
          ∧ (mkBulkEntry exampleBulkData ex d).signedLeads
              = exampleBulkData.signedLeads.getD
                  ((ex.map DailyEntry.signedLeads).getD 0))) :=
  ⟨by decide, by decide,
    bulk_save_range crossMonthProfile exampleBulkData
      ⟨2024, 2, 28⟩ ⟨2024, 3, 1⟩ (by decide)⟩


end Leads
